import Mathlib

/-
  Verification of the scene-graph clip-mask compositing core of this
  repository (a paper.js snapshot): the Group clip-item cache, the
  setClipped policy, the pooled clip-compositing draw pass, the shared
  single-buffer draw variant, the canvas pool, and the Base utilities
  Base.equals and Base.splice.

  Every definition is a shallow embedding of the corresponding JavaScript
  in the sampled sources; where a collaborator is not among the sampled
  sources (CanvasProvider, Item#setClipMask, Item#addChildren, the
  ChangeFlag constants) the definition is modelled from the spec and says
  so in its doc comment.
-/

/-- A scene-graph item as the Group code observes it: an identity, its
`_clipMask` flag, and its own child list (so grandchildren exist in the
model).  Node-specific drawing is polymorphic and opaque to GroupNode. -/
inductive SceneItem where
  | node (ident : Nat) (clipMask : Bool) (children : List SceneItem)

/-- The item's `_clipMask` flag. -/
def SceneItem.clipMask : SceneItem → Bool
  | .node _ m _ => m

/-- The item's identity (stands for the JS object reference). -/
def SceneItem.ident : SceneItem → Nat
  | .node i _ _ => i

/-- The item's own children. -/
def SceneItem.childList : SceneItem → List SceneItem
  | .node _ _ cs => cs

/-- `item.setClipMask(m)` as it acts on the item record itself: replaces
`_clipMask`, leaving identity and children untouched. -/
def SceneItem.withClipMask : SceneItem → Bool → SceneItem
  | .node i _ cs, m => .node i m cs

/-- A rectangle as returned by `getBounds()` / `getStrokeBounds()`. -/
structure Rect where
  x : ℚ
  y : ℚ
  w : ℚ
  h : ℚ
deriving DecidableEq, Repr

/-- Modelled from the spec: the ChangeFlag bit constants (the file defining
them is not among the sampled sources); the spec gives the flag set
GEOMETRY, STYLE, HIERARCHY, CLIPPING as dirty bits, so they are
distinct powers of two. -/
def ChangeFlag.GEOMETRY : Nat := 1

/-- Modelled from the spec: the STYLE change flag bit. -/
def ChangeFlag.STYLE : Nat := 2

/-- Modelled from the spec: the HIERARCHY change flag bit. -/
def ChangeFlag.HIERARCHY : Nat := 4

/-- Modelled from the spec: the CLIPPING change flag bit. -/
def ChangeFlag.CLIPPING : Nat := 8

/-- The state of a Group (CompositeNode; named GroupNode here because Lean already declares an algebraic class called Group) that the sampled Group code reads
and writes:
* `children` — the `_children` list;
* `clipItems` — the `_clipItems` cache, `none` when the property has been
  deleted (JS `undefined`);
* `compositing` — `this.compositing`, set to `'source-in'` on construction;
* `namedChildren` — the `_namedChildren` index (opaque here);
* `strokeBounds` — the value `this.getStrokeBounds()` returns (computed by
  the external Item/bounds collaborator, carried as data);
* `geomBounds` — the value `this.getBounds()` returns (external likewise). -/
structure GroupNode where
  children : List SceneItem
  clipItems : Option (List SceneItem)
  compositing : String
  namedChildren : List (String × Nat)
  strokeBounds : Rect
  geomBounds : Rect

/-- `GroupNode.prototype._changed` (part_002 lines 240-247): after delegating to
the Item base (which touches only SceneNode-level caches, none of which are
part of this record), it deletes `_clipItems` when the flags carry
HIERARCHY or CLIPPING bits. -/
def GroupNode.changed (g : GroupNode) (flags : Nat) : GroupNode :=
  if flags &&& (ChangeFlag.HIERARCHY ||| ChangeFlag.CLIPPING) ≠ 0 then
    { g with clipItems := none }
  else
    g

/-- `GroupNode.prototype._getClipItems` (part_002 lines 249-261): recompute only
when `_clipItems` is undefined, by scanning `_children` once in order and
pushing each child whose `_clipMask` is set; store and return.  The Lean
version returns the value together with the updated group state. -/
def GroupNode.getClipItems (g : GroupNode) : List SceneItem × GroupNode :=
  match g.clipItems with
  | some items => (items, g)
  | none =>
    let items := g.children.filter SceneItem.clipMask
    (items, { g with clipItems := some items })

/-- `GroupNode.prototype.isClipped` (part_002 lines 271-273):
`this._getClipItems().length !== 0`, with the cache effect made explicit. -/
def GroupNode.isClipped (g : GroupNode) : Bool × GroupNode :=
  let r := GroupNode.getClipItems g
  (r.1.length != 0, r.2)

/-- `GroupNode.prototype.setClipped` (part_002 lines 275-280): take the first
child; if present call `child.setClipMask(clipped)`.  Modelled from the
spec: `Item#setClipMask` is not among the sampled sources; per the spec it
sets the child's `clipMask` and emits CLIPPING, which reaches this group
through `_changed` and invalidates the clip-item cache. -/
def GroupNode.setClipped (g : GroupNode) (clipped : Bool) : GroupNode :=
  match g.children with
  | [] => g
  | child :: rest =>
    GroupNode.changed
      { g with children := SceneItem.withClipMask child clipped :: rest }
      ChangeFlag.CLIPPING

/-- Modelled from the spec: `Item#addChildren`-style attachment is not among
the sampled sources; per the spec it appends the child to `_children` and
emits HIERARCHY, which reaches this group through `_changed`. -/
def GroupNode.addChild (g : GroupNode) (c : SceneItem) : GroupNode :=
  GroupNode.changed { g with children := g.children ++ [c] } ChangeFlag.HIERARCHY

/-- A raster buffer (an in-memory canvas) handed out by the provider: its
identity and the size it was created with.  The size type is a parameter:
the draw code uses `ℚ × ℚ` sizes, while the pool protocol itself is
size-agnostic. -/
structure Canvas (σ : Type) where
  id : Nat
  size : σ
deriving DecidableEq, Repr

/-- Modelled from the spec: the CanvasProvider (the SurfacePool of §4.3) is
not among the sampled sources.  Its state: a free list of reusable
buffers, the buffers currently checked out (live), and a counter for fresh
identities. -/
structure PoolState (σ : Type) where
  free : List (Canvas σ)
  live : List (Canvas σ)
  nextId : Nat
deriving DecidableEq, Repr

/-- Remove the first free-list entry of exactly the requested size class,
returning it with the remaining free list. -/
def CanvasProvider.takeFree [DecidableEq σ] (size : σ) :
    List (Canvas σ) → Option (Canvas σ × List (Canvas σ))
  | [] => none
  | c :: rest =>
    if c.size = size then some (c, rest)
    else
      match CanvasProvider.takeFree size rest with
      | some (f, l) => some (f, c :: l)
      | none => none

/-- Modelled from the spec: `CanvasProvider.getCanvas(size)` returns a
buffer of the requested size, reused from the free list keyed by size
class when available, else newly allocated; the buffer becomes live. -/
def CanvasProvider.getCanvas [DecidableEq σ] (size : σ) (st : PoolState σ) :
    Canvas σ × PoolState σ :=
  match CanvasProvider.takeFree size st.free with
  | some (c, restFree) =>
    (c, { free := restFree, live := c :: st.live, nextId := st.nextId })
  | none =>
    let c : Canvas σ := ⟨st.nextId, size⟩
    (c, { free := st.free, live := c :: st.live, nextId := st.nextId + 1 })

/-- Drop the first live entry with the given identity. -/
def CanvasProvider.removeLive (i : Nat) : List (Canvas σ) → List (Canvas σ)
  | [] => []
  | c :: rest => if c.id = i then rest else c :: CanvasProvider.removeLive i rest

/-- Modelled from the spec: `CanvasProvider.returnCanvas(canvas)` puts the
buffer back on the free list for future checkout; it stops being live. -/
def CanvasProvider.returnCanvas [DecidableEq σ] (c : Canvas σ) (st : PoolState σ) :
    PoolState σ :=
  { free := c :: st.free,
    live := CanvasProvider.removeLive c.id st.live,
    nextId := st.nextId }

/-- The pool with nothing allocated yet. -/
def CanvasProvider.initPool (σ : Type) : PoolState σ := ⟨[], [], 0⟩

/-- One checkout or release event of a draw traversal, in the order the
traversal performs them (re-entrant recursive draws of nested clipped
groups produce nested checkout/release pairs in this list). -/
inductive PoolOp (σ : Type) where
  | checkout (size : σ)
  | release (c : Canvas σ)
deriving DecidableEq, Repr

/-- Run one pool event. -/
def CanvasProvider.stepPool [DecidableEq σ] (st : PoolState σ) : PoolOp σ → PoolState σ
  | .checkout size => (CanvasProvider.getCanvas size st).2
  | .release c => CanvasProvider.returnCanvas c st

/-- Well-formedness of a pool state: live identities are pairwise distinct,
free identities are pairwise distinct, no buffer is simultaneously free and
live, and every identity is below the fresh counter. -/
def CanvasProvider.poolWF (st : PoolState σ) : Prop :=
  (st.live.map Canvas.id).Nodup ∧
  (st.free.map Canvas.id).Nodup ∧
  (∀ c ∈ st.free, c.id ∉ st.live.map Canvas.id) ∧
  (∀ c ∈ st.free, c.id < st.nextId) ∧
  (∀ c ∈ st.live, c.id < st.nextId)

/-- An event list obeys the scoped-acquisition contract when every release
names a buffer that is live at that moment (each checkout matched by at
most one release, and only of a handed-out buffer). -/
def CanvasProvider.validOps [DecidableEq σ] : PoolState σ → List (PoolOp σ) → Bool
  | _, [] => true
  | st, .checkout size :: rest =>
    CanvasProvider.validOps (CanvasProvider.stepPool st (.checkout size)) rest
  | st, .release c :: rest =>
    st.live.any (fun c0 => decide (c0 = c)) &&
      CanvasProvider.validOps (CanvasProvider.stepPool st (.release c)) rest

/-- Every checkout in the event list hands out a buffer that is not live at
that moment — it was never handed out again before being released. -/
def CanvasProvider.checkoutsFresh [DecidableEq σ] : PoolState σ → List (PoolOp σ) → Bool
  | _, [] => true
  | st, .checkout size :: rest =>
    !((st.live.map Canvas.id).any
        (fun i => decide (i = (CanvasProvider.getCanvas size st).1.id))) &&
      CanvasProvider.checkoutsFresh (CanvasProvider.stepPool st (.checkout size)) rest
  | st, .release c :: rest =>
    CanvasProvider.checkoutsFresh (CanvasProvider.stepPool st (.release c)) rest

/-- At every moment of the event list the live buffers are pairwise
distinct. -/
def CanvasProvider.liveAlwaysNodup [DecidableEq σ] : PoolState σ → List (PoolOp σ) → Bool
  | st, [] => decide (st.live.map Canvas.id).Nodup
  | st, op :: rest =>
    decide (st.live.map Canvas.id).Nodup &&
      CanvasProvider.liveAlwaysNodup (CanvasProvider.stepPool st op) rest

/-- A concrete nested traversal: three nested checkouts (an outer clipped
group, a nested clipped group, a further nested one), then the releases in
reverse order, then one more checkout reusing the freed size class. -/
def nestedTraversal : List (PoolOp (ℤ × ℤ)) :=
  [ .checkout (8, 8), .checkout (5, 5), .checkout (3, 3),
    .release ⟨2, (3, 3)⟩, .release ⟨1, (5, 5)⟩, .release ⟨0, (8, 8)⟩,
    .checkout (5, 5) ]

/-- The draw parameter object: the sampled draw code reads and writes
`param.offset`. -/
structure DrawParam where
  offset : ℚ × ℚ
deriving DecidableEq, Repr

/-- One observable action of a Group draw call on the canvas contexts,
identified by the target context's canvas identity.  `drawItem` records a
delegation `Item.draw(item, ctx, param)` to the child's own polymorphic
draw behavior (its pixels are opaque to the Group code); `checkout` and
`release` record the CanvasProvider calls together with the requested
size / the returned canvas. -/
inductive DrawEffect where
  | checkout (size : ℚ × ℚ) (target : Nat)
  | save (target : Nat)
  | translate (target : Nat) (dx dy : ℚ)
  | applyMatrix (target : Nat)
  | drawItem (item : Nat) (target : Nat) (offset : ℚ × ℚ)
  | setCompositeOperation (target : Nat) (op : String)
  | drawImage (src : Nat) (target : Nat) (x y : ℚ)
  | restore (target : Nat)
  | clearRect (target : Nat) (x y w h : ℚ)
  | release (target : Nat)
deriving DecidableEq, Repr

/-- The stencil loop of both draw variants (part_002 lines 139-142 and
311-314): draw every clip item, in list order, onto the given context. -/
def GroupNode.drawClipLoop (items : List SceneItem) (ctx : Nat) (param : DrawParam) :
    List DrawEffect :=
  items.map (fun it => DrawEffect.drawItem it.ident ctx param.offset)

/-- The regular-item loop of the pooled variant (part_002 lines 319-323):
draw each child for which `!item._clipMask` holds, in list order. -/
def GroupNode.drawRegular (items : List SceneItem) (ctx : Nat) (param : DrawParam) :
    List DrawEffect :=
  match items with
  | [] => []
  | it :: rest =>
    (if !it.clipMask then [DrawEffect.drawItem it.ident ctx param.offset] else []) ++
      GroupNode.drawRegular rest ctx param

/-- The regular-item loop of the shared single-buffer variant (part_002
lines 147-151): the guard reads `!item._clipMark` — but `_clipMark` is a
property no code in the program ever sets (the clip flag is spelled
`_clipMask`), so the guard reads JS `undefined`, is always satisfied, and
every child is drawn, clip-mask children included. -/
def GroupNode.drawRegularShared (items : List SceneItem) (ctx : Nat) (param : DrawParam) :
    List DrawEffect :=
  match items with
  | [] => []
  | it :: rest =>
    DrawEffect.drawItem it.ident ctx param.offset ::
      GroupNode.drawRegularShared rest ctx param

/-- The pooled `Group.prototype.draw` (part_002 lines 286-330).  Effects in
source order: resolve the clip items; when non-empty, take the stroke
bounds, return drawing nothing when either extent is zero, floor the
top-left into `param.offset`/`itemOffset`, get a canvas of the ceiled size
plus `Size.create(1, 1)` from the provider, save, translate by the negated
offset, apply the group matrix, draw the clip items, set the group's
compositing operator, draw the non-clip-mask children, draw the temporary
canvas back onto the parent context at the item offset, restore, and
return the canvas to the provider.  When the clip-item list is empty only
the regular loop runs, against the parent context. -/
def GroupNode.drawPooled (g : GroupNode) (ctx : Nat) (param : DrawParam)
    (pool : PoolState (ℚ × ℚ)) :
    List DrawEffect × PoolState (ℚ × ℚ) × GroupNode :=
  let r := GroupNode.getClipItems g
  let clipItems := r.1
  let g1 := r.2
  if clipItems.length ≠ 0 then
    let bounds := g.strokeBounds
    if bounds.w = 0 ∨ bounds.h = 0 then
      ([], pool, g1)
    else
      let itemOffset : ℚ × ℚ := (((⌊bounds.x⌋ : ℤ) : ℚ), ((⌊bounds.y⌋ : ℤ) : ℚ))
      let param1 : DrawParam := ⟨itemOffset⟩
      let reqSize : ℚ × ℚ :=
        ((((⌈bounds.w⌉ : ℤ) + 1 : ℤ) : ℚ), (((⌈bounds.h⌉ : ℤ) + 1 : ℤ) : ℚ))
      let rc := CanvasProvider.getCanvas reqSize pool
      let t := rc.1.id
      (DrawEffect.checkout reqSize t ::
        DrawEffect.save t ::
        DrawEffect.translate t (-itemOffset.1) (-itemOffset.2) ::
        DrawEffect.applyMatrix t ::
        (GroupNode.drawClipLoop clipItems t param1 ++
          DrawEffect.setCompositeOperation t g1.compositing ::
          (GroupNode.drawRegular g1.children t param1 ++
            [DrawEffect.drawImage t ctx itemOffset.1 itemOffset.2,
             DrawEffect.restore t,
             DrawEffect.release t])),
       CanvasProvider.returnCanvas rc.1 rc.2, g1)
  else
    (GroupNode.drawRegular g1.children ctx param, pool, g1)

/-- The shared single-buffer `Group.prototype.draw` (part_002 lines
124-158): the module-scope closure variable `context` caches one canvas;
when the group is clipped it takes `this.getBounds()` (no degenerate-size
check), allocates the shared canvas on first use only (sized to the raw
bounds size, no flooring, no padding), saves, translates, draws the clip
items, sets the compositing operator, runs the regular loop (which, through
the `_clipMark` slip, draws every child), draws the canvas back, restores,
and clears the canvas instead of releasing it. -/
def GroupNode.drawShared (g : GroupNode) (ctx : Nat) (param : DrawParam)
    (shared : Option (Canvas (ℚ × ℚ))) (pool : PoolState (ℚ × ℚ)) :
    List DrawEffect × Option (Canvas (ℚ × ℚ)) × PoolState (ℚ × ℚ) × GroupNode :=
  let r := GroupNode.getClipItems g
  let clipItems := r.1
  let g1 := r.2
  if clipItems.length ≠ 0 then
    let bounds := g.geomBounds
    let rc := match shared with
      | some c0 => (c0, pool)
      | none => CanvasProvider.getCanvas (bounds.w, bounds.h) pool
    let t := rc.1.id
    ((match shared with
        | some _ => []
        | none => [DrawEffect.checkout (bounds.w, bounds.h) t]) ++
      DrawEffect.save t ::
      DrawEffect.translate t (-bounds.x) (-bounds.y) ::
      (GroupNode.drawClipLoop clipItems t param ++
        DrawEffect.setCompositeOperation t g1.compositing ::
        (GroupNode.drawRegularShared g1.children t param ++
          [DrawEffect.drawImage t ctx bounds.x bounds.y,
           DrawEffect.restore t,
           DrawEffect.clearRect t 0 0 (rc.1.size.1 + 1) (rc.1.size.2 + 1)])),
     some rc.1, rc.2, g1)
  else
    (GroupNode.drawRegularShared g1.children ctx param, shared, pool, g1)

/-- How many times the draw-effect list delegates to the child with the
given identity. -/
def countItemDraws (ident : Nat) : List DrawEffect → Nat
  | [] => 0
  | DrawEffect.drawItem i _ _ :: rest =>
    (if i = ident then 1 else 0) + countItemDraws ident rest
  | _ :: rest => countItemDraws ident rest

/-- True exactly on checkout effects. -/
def DrawEffect.isCheckout : DrawEffect → Bool
  | .checkout _ _ => true
  | _ => false

/-- True exactly on drawImage (composite-back) effects. -/
def DrawEffect.isDrawImage : DrawEffect → Bool
  | .drawImage _ _ _ _ => true
  | _ => false

/-- A clipped group with one clip-mask child and one regular child, used to
exercise the shared single-buffer draw variant. -/
def gC2 : GroupNode :=
  { children := [.node 0 true [], .node 1 false []], clipItems := none,
    compositing := "source-in", namedChildren := [],
    strokeBounds := ⟨0, 0, 4, 4⟩, geomBounds := ⟨0, 0, 4, 4⟩ }

/-- A clipped group whose stroke bounds have the fractional extents of the
spec's padding example. -/
def gC4 : GroupNode :=
  { children := [.node 0 true [], .node 1 false []], clipItems := none,
    compositing := "source-in", namedChildren := [],
    strokeBounds := ⟨10.4, 3.25, 20.3, 5.5⟩, geomBounds := ⟨10.4, 3.25, 20.3, 5.5⟩ }

/-- A clipped group whose stroke bounds are degenerate (zero width). -/
def gC6 : GroupNode :=
  { children := [.node 0 true []], clipItems := none,
    compositing := "source-in", namedChildren := [],
    strokeBounds := ⟨1, 2, 0, 5⟩, geomBounds := ⟨1, 2, 0, 5⟩ }

/-- A previously unclipped group whose only clip-mask node is a grandchild
(nested inside the first child), never a direct child. -/
def gC3 : GroupNode :=
  { children := [.node 0 false [.node 5 true []]], clipItems := none,
    compositing := "source-in", namedChildren := [],
    strokeBounds := ⟨0, 0, 1, 1⟩, geomBounds := ⟨0, 0, 1, 1⟩ }

/-- A group whose only clip-mask child is the second child, not the
first. -/
def gC8 : GroupNode :=
  { children := [.node 0 false [], .node 1 true []], clipItems := none,
    compositing := "source-in", namedChildren := [],
    strokeBounds := ⟨0, 0, 1, 1⟩, geomBounds := ⟨0, 0, 1, 1⟩ }

/-- A JavaScript value as `Base.equals` (src/core/Base.js lines 60-95)
observes it: numbers, strings, arrays, plain objects (ordered key/value
own-property lists), and `undefined`.  Values carrying a custom `equals`
method are outside this model (the claim is about values without one), so
the `obj.equals` branches of the source never fire. -/
inductive JVal where
  | num (n : Int)
  | str (s : String)
  | arr (elems : List JVal)
  | obj (fields : List (String × JVal))
  | undefinedV

/-- JS loose equality `==` restricted to this value model: numbers and
strings compare by value, `undefined == undefined` holds, and two array or
object literals are distinct heap references, so `==` on them is false
(every value here denotes a freshly constructed object). -/
def looseEq : JVal → JVal → Bool
  | .num a, .num b => a == b
  | .str a, .str b => a == b
  | .undefinedV, .undefinedV => true
  | _, _ => false

/-- JS `typeof v === 'object'` on this model: arrays and plain objects. -/
def typeofIsObject : JVal → Bool
  | .arr _ => true
  | .obj _ => true
  | _ => false

/-- The own enumerable properties a `for (var i in o)` loop visits: an
array yields its indices (as strings) with their elements, an object its
fields, anything else nothing. -/
def keysAndVals : JVal → List (String × JVal)
  | .arr elems => (List.range elems.length).zip elems |>.map
      (fun p => (toString p.1, p.2))
  | .obj fields => fields
  | _ => []

/-- JS property read `o[k]`: `undefined` when the key is absent. -/
def getField (v : JVal) (k : String) : JVal :=
  ((keysAndVals v).lookup k).getD .undefinedV

/-- The source's inner `checkKeys(o1, o2)`: every own property of `o1`
must be present (not `undefined`) on `o2`. -/
def checkKeys (o1 o2 : JVal) : Bool :=
  (keysAndVals o1).all fun kv =>
    match getField o2 kv.1 with
    | .undefinedV => false
    | _ => true

/-- The array loop of `Base.equals` (lines 72-75), exactly as written: the
body tests `!Base.equals(obj1, obj2)` — the *whole arrays* again, not
`obj1[i], obj2[i]` — so each iteration re-enters the full comparison on the
same pair.  `eqF` is the recursive call at one less fuel. -/
def arrLoopF (eqF : JVal → JVal → Option Bool) (o1 o2 : JVal) : Nat → Option Bool
  | 0 => some true
  | k + 1 =>
    match eqF o1 o2 with
    | none => none
    | some false => some false
    | some true => arrLoopF eqF o1 o2 k

/-- The object loop of `Base.equals` (lines 88-91): for each own property
of `obj1`, compare `obj1[i]` with `obj2[i]`. -/
def objLoopF (eqF : JVal → JVal → Option Bool) (o2 : JVal) :
    List (String × JVal) → Option Bool
  | [] => some true
  | (k, v) :: rest =>
    match eqF v (getField o2 k) with
    | none => none
    | some false => some false
    | some true => objLoopF eqF o2 rest

/-- `Base.equals(obj1, obj2)` (src/core/Base.js lines 60-95) with a fuel
bound on recursion depth; `none` means the call has not terminated within
that depth — if the result is `none` for every fuel, the JS call recurses
forever (stack overflow).  Branches in source order: `obj1 == obj2`; the
`obj1.equals`/`obj2.equals` dispatch (never taken: no value in this model
has a custom equals method); the array branch (length check, then the loop
that re-compares the whole arrays); the object branch (`checkKeys` both
ways, then the field loop); otherwise false. -/
def equalsFuel : Nat → JVal → JVal → Option Bool
  | 0, _, _ => none
  | fuel + 1, o1, o2 =>
    if looseEq o1 o2 then some true
    else
      match o1, o2 with
      | .arr a, .arr b =>
        if a.length ≠ b.length then some false
        else arrLoopF (equalsFuel fuel) (.arr a) (.arr b) a.length
      | o1, o2 =>
        if typeofIsObject o1 && typeofIsObject o2 then
          if !(checkKeys o1 o2 && checkKeys o2 o1) then some false
          else objLoopF (equalsFuel fuel) o2 (keysAndVals o1)
        else some false

/-- An entry of an indexed child list as `Base.splice` (src/core/Base.js
lines 172-198) sees it: an identity plus the private `_index` property
(`none` when the property is absent/deleted). -/
structure ChildElem where
  name : Nat
  idx : Option Nat
deriving DecidableEq, Repr

/-- The first loop of `Base.splice`:
`for (var i = 0; i < amount; i++) items[i]._index = index + i`. -/
def withIndices (start : Nat) : List ChildElem → List ChildElem
  | [] => []
  | it :: rest => { it with idx := some start } :: withIndices (start + 1) rest

/-- The adjustment loop of `Base.splice`:
`for (var i = index + amount, l = list.length; i < l; i++) list[i]._index = i`
— reassign `_index` on every element whose position (counted from `pos`)
is at least `threshold`. -/
def adjustFrom (threshold pos : Nat) : List ChildElem → List ChildElem
  | [] => []
  | it :: rest =>
    (if threshold ≤ pos then { it with idx := some pos } else it) ::
      adjustFrom threshold (pos + 1) rest

/-- `Base.splice(list, items, index, remove)` (src/core/Base.js lines
172-198), returning the list after the call and the removed elements.
`index = none` is the JS `undefined` append path.  The `_index` stamps on
the inserted items use the caller's raw `index`, while the actual JS
`Array.prototype.splice` insertion position is clamped to the list length
(`min`); the adjustment loop likewise starts at the raw `index + amount`.
Removed elements get their `_index` property deleted. -/
def spliceJS (list items : List ChildElem) (index : Option Nat) (remove : Nat) :
    List ChildElem × List ChildElem :=
  let amount := items.length
  let indexV := index.getD list.length
  let items2 := withIndices indexV items
  match index with
  | none => (list ++ items2, [])
  | some ix =>
    let actual := min ix list.length
    let removed := (list.drop actual).take remove
    let kept := list.take actual ++ (items2 ++ (list.drop actual).drop remove)
    (adjustFrom (ix + amount) 0 kept,
     removed.map fun it => { it with idx := none })

/-- Every element's `_index` equals its position, positions counted from
`pos`. -/
def indexInvariantFrom (pos : Nat) : List ChildElem → Bool
  | [] => true
  | it :: rest => (it.idx == some pos) && indexInvariantFrom (pos + 1) rest

/-- The child-list index invariant: every element's `_index` equals its
position in the list. -/
def indexInvariant (l : List ChildElem) : Bool := indexInvariantFrom 0 l

/-- Claim C7: for every CompositeNode, two consecutive `getClipItems()`
calls with no intervening mutation return identical ordered content: the
second call returns the cached sequence unchanged. -/
theorem getClipItems_stable (g : GroupNode) :
    (GroupNode.getClipItems (GroupNode.getClipItems g).2).1 = (GroupNode.getClipItems g).1 := by
  cases h : g.clipItems <;> simp [GroupNode.getClipItems, h]

/-- Claim C5: `setClipped(flag)` on a CompositeNode with at least one child
sets `clipMask` to `flag` on the first child only, leaving every other
child and every other field of the group unchanged — except the clip-item
cache, which the CLIPPING notification emitted by the mutation clears, as
the same spec passage prescribes; with zero children it is a no-op. -/
theorem setClipped_first_child_only (g : GroupNode) (flag : Bool) :
    GroupNode.setClipped g flag =
      match g.children with
      | [] => g
      | child :: rest =>
        { g with children := SceneItem.withClipMask child flag :: rest,
                 clipItems := none } := by
  cases h : g.children with
  | nil => simp [GroupNode.setClipped, h]
  | cons child rest =>
    simp [GroupNode.setClipped, h, GroupNode.changed,
      ChangeFlag.HIERARCHY, ChangeFlag.CLIPPING]

theorem CanvasProvider.takeFree_perm [DecidableEq σ] {size : σ}
    {l rest : List (Canvas σ)} {c : Canvas σ}
    (h : CanvasProvider.takeFree size l = some (c, rest)) : l.Perm (c :: rest) := by
  induction l generalizing c rest with
  | nil => simp [CanvasProvider.takeFree] at h
  | cons c0 l0 ih =>
    by_cases hs : c0.size = size
    · simp only [CanvasProvider.takeFree, if_pos hs, Option.some.injEq,
        Prod.mk.injEq] at h
      rw [← h.1, ← h.2]
    · simp only [CanvasProvider.takeFree, if_neg hs] at h
      cases h0 : CanvasProvider.takeFree size l0 with
      | none => rw [h0] at h; simp at h
      | some p =>
        obtain ⟨f, l1⟩ := p
        rw [h0] at h
        simp only [Option.some.injEq, Prod.mk.injEq] at h
        rw [← h.1, ← h.2]
        exact (List.Perm.cons c0 (ih h0)).trans (List.Perm.swap _ _ _)

theorem CanvasProvider.getCanvas_some [DecidableEq σ] {size : σ} {st : PoolState σ}
    {c : Canvas σ} {restFree : List (Canvas σ)}
    (h : CanvasProvider.takeFree size st.free = some (c, restFree)) :
    CanvasProvider.getCanvas size st =
      (c, { free := restFree, live := c :: st.live, nextId := st.nextId }) := by
  unfold CanvasProvider.getCanvas
  rw [h]

theorem CanvasProvider.getCanvas_none [DecidableEq σ] {size : σ} {st : PoolState σ}
    (h : CanvasProvider.takeFree size st.free = none) :
    CanvasProvider.getCanvas size st =
      (⟨st.nextId, size⟩,
       { free := st.free, live := ⟨st.nextId, size⟩ :: st.live,
         nextId := st.nextId + 1 }) := by
  unfold CanvasProvider.getCanvas
  rw [h]

theorem CanvasProvider.removeLive_sublist (i : Nat) (l : List (Canvas σ)) :
    (CanvasProvider.removeLive i l).Sublist l := by
  induction l with
  | nil => simp [CanvasProvider.removeLive]
  | cons c rest ih =>
    by_cases h : c.id = i
    · simp [CanvasProvider.removeLive, h]
    · simpa [CanvasProvider.removeLive, h] using ih.cons₂ c

theorem CanvasProvider.removeLive_id_not_mem {i : Nat} {l : List (Canvas σ)}
    (h : (l.map Canvas.id).Nodup) :
    i ∉ (CanvasProvider.removeLive i l).map Canvas.id := by
  induction l with
  | nil => simp [CanvasProvider.removeLive]
  | cons c rest ih =>
    simp only [List.map_cons, List.nodup_cons] at h
    by_cases hc : c.id = i
    · subst hc
      simpa [CanvasProvider.removeLive] using h.1
    · simp only [CanvasProvider.removeLive, if_neg hc, List.map_cons, List.mem_cons]
      push_neg
      exact ⟨fun he => hc he.symm, ih h.2⟩

theorem CanvasProvider.getCanvas_fresh [DecidableEq σ] (size : σ) (st : PoolState σ)
    (hwf : CanvasProvider.poolWF st) :
    (CanvasProvider.getCanvas size st).1.id ∉ st.live.map Canvas.id := by
  obtain ⟨-, -, hdisj, -, hlt⟩ := hwf
  cases h : CanvasProvider.takeFree size st.free with
  | some p =>
    obtain ⟨c, restFree⟩ := p
    rw [CanvasProvider.getCanvas_some h]
    have hmem : c ∈ st.free :=
      (CanvasProvider.takeFree_perm h).mem_iff.mpr (List.mem_cons_self _ _)
    exact hdisj c hmem
  | none =>
    rw [CanvasProvider.getCanvas_none h]
    intro hmem
    obtain ⟨c', hc', hid⟩ := List.mem_map.mp hmem
    exact Nat.ne_of_lt (hlt c' hc') hid

theorem CanvasProvider.getCanvas_wf [DecidableEq σ] (size : σ) (st : PoolState σ)
    (hwf : CanvasProvider.poolWF st) :
    CanvasProvider.poolWF (CanvasProvider.getCanvas size st).2 := by
  have hfresh := CanvasProvider.getCanvas_fresh size st hwf
  obtain ⟨hln, hfn, hdisj, hflt, hllt⟩ := hwf
  cases h : CanvasProvider.takeFree size st.free with
  | some p =>
    obtain ⟨c, restFree⟩ := p
    rw [CanvasProvider.getCanvas_some h] at hfresh ⊢
    have hperm : st.free.Perm (c :: restFree) := CanvasProvider.takeFree_perm h
    have hpermId : (st.free.map Canvas.id).Perm (c.id :: restFree.map Canvas.id) :=
      by simpa using hperm.map Canvas.id
    have hfn' : (c.id :: restFree.map Canvas.id).Nodup := hpermId.nodup_iff.mp hfn
    have hrsub : ∀ c' ∈ restFree, c' ∈ st.free := fun c' hc' =>
      hperm.mem_iff.mpr (List.mem_cons_of_mem _ hc')
    have hf2 : c.id ∉ st.live.map Canvas.id := hfresh
    refine ⟨?_, (List.nodup_cons.mp hfn').2, ?_, ?_, ?_⟩
    · rw [List.map_cons, List.nodup_cons]
      exact ⟨hf2, hln⟩
    · intro c' hc'
      simp only [List.map_cons, List.mem_cons]
      push_neg
      constructor
      · intro he
        exact (List.nodup_cons.mp hfn').1 (he ▸ List.mem_map_of_mem Canvas.id hc')
      · exact hdisj c' (hrsub c' hc')
    · exact fun c' hc' => hflt c' (hrsub c' hc')
    · intro c' hc'
      rcases List.mem_cons.mp hc' with he | hm
      · subst he
        exact hflt c' (hperm.mem_iff.mpr (List.mem_cons_self _ _))
      · exact hllt c' hm
  | none =>
    rw [CanvasProvider.getCanvas_none h] at hfresh ⊢
    have hf2 : st.nextId ∉ st.live.map Canvas.id := hfresh
    refine ⟨?_, hfn, ?_, ?_, ?_⟩
    · rw [List.map_cons, List.nodup_cons]
      exact ⟨hf2, hln⟩
    · intro c' hc'
      simp only [List.map_cons, List.mem_cons]
      push_neg
      exact ⟨Nat.ne_of_lt (hflt c' hc'), hdisj c' hc'⟩
    · exact fun c' hc' => Nat.lt_succ_of_lt (hflt c' hc')
    · intro c' hc'
      rcases List.mem_cons.mp hc' with he | hm
      · subst he; exact Nat.lt_succ_self _
      · exact Nat.lt_succ_of_lt (hllt c' hm)

theorem CanvasProvider.returnCanvas_wf [DecidableEq σ] (c : Canvas σ) (st : PoolState σ)
    (hwf : CanvasProvider.poolWF st) (hc : c ∈ st.live) :
    CanvasProvider.poolWF (CanvasProvider.returnCanvas c st) := by
  obtain ⟨hln, hfn, hdisj, hflt, hllt⟩ := hwf
  have hsub : (CanvasProvider.removeLive c.id st.live).Sublist st.live :=
    CanvasProvider.removeLive_sublist c.id st.live
  have hsubId : ((CanvasProvider.removeLive c.id st.live).map Canvas.id).Sublist
      (st.live.map Canvas.id) := hsub.map Canvas.id
  refine ⟨hln.sublist hsubId, ?_, ?_, ?_, ?_⟩
  · simp only [CanvasProvider.returnCanvas, List.map_cons, List.nodup_cons]
    refine ⟨fun hmem => ?_, hfn⟩
    obtain ⟨c', hc', hid⟩ := List.mem_map.mp hmem
    exact hdisj c' hc' (hid ▸ List.mem_map_of_mem Canvas.id hc)
  · intro c' hc'
    rcases List.mem_cons.mp hc' with he | hm
    · subst he
      exact CanvasProvider.removeLive_id_not_mem hln
    · exact fun hmem => hdisj c' hm (hsubId.subset hmem)
  · intro c' hc'
    rcases List.mem_cons.mp hc' with he | hm
    · subst he; exact hllt c' hc
    · exact hflt c' hm
  · exact fun c' hc' => hllt c' (hsub.subset hc')

/-- Claim C1: during any draw traversal — any sequence of checkout/release
events obeying the scoped-acquisition contract, which covers re-entrant
recursive draws of nested clipped groups checking out further buffers
before the outer one is released — every checkout hands out a buffer that
is not currently live (never handed out again until released), and at
every moment the live intermediate buffers are pairwise distinct. -/
theorem pool_checkouts_fresh_and_live_distinct (σ : Type) [DecidableEq σ]
    (ops : List (PoolOp σ)) (st : PoolState σ)
    (hwf : CanvasProvider.poolWF st)
    (hv : CanvasProvider.validOps st ops = true) :
    CanvasProvider.checkoutsFresh st ops = true ∧
      CanvasProvider.liveAlwaysNodup st ops = true := by
  induction ops generalizing st with
  | nil =>
    exact ⟨rfl, by simpa [CanvasProvider.liveAlwaysNodup] using hwf.1⟩
  | cons op rest ih =>
    cases op with
    | checkout size =>
      have hv' : CanvasProvider.validOps
          (CanvasProvider.stepPool st (.checkout size)) rest = true := hv
      have hwf' : CanvasProvider.poolWF
          (CanvasProvider.stepPool st (.checkout size)) :=
        CanvasProvider.getCanvas_wf size st hwf
      have hrest := ih _ hwf' hv'
      refine ⟨?_, ?_⟩
      · show (!((st.live.map Canvas.id).any
            (fun i => decide (i = (CanvasProvider.getCanvas size st).1.id))) &&
          CanvasProvider.checkoutsFresh
            (CanvasProvider.stepPool st (.checkout size)) rest) = true
        rw [Bool.and_eq_true, Bool.not_eq_true']
        refine ⟨?_, hrest.1⟩
        rw [List.any_eq_false]
        intro i hi
        simp only [decide_eq_true_eq]
        intro he
        exact CanvasProvider.getCanvas_fresh size st hwf (he ▸ hi)
      · show (decide (st.live.map Canvas.id).Nodup &&
          CanvasProvider.liveAlwaysNodup
            (CanvasProvider.stepPool st (.checkout size)) rest) = true
        rw [Bool.and_eq_true]
        exact ⟨decide_eq_true hwf.1, hrest.2⟩
    | release c =>
      have hv2 : (st.live.any (fun c0 => decide (c0 = c)) &&
          CanvasProvider.validOps
            (CanvasProvider.stepPool st (.release c)) rest) = true := hv
      rw [Bool.and_eq_true] at hv2
      have hcmem : c ∈ st.live := by
        obtain ⟨c0, hc0, he⟩ := List.any_eq_true.mp hv2.1
        exact (of_decide_eq_true he) ▸ hc0
      have hwf' : CanvasProvider.poolWF
          (CanvasProvider.stepPool st (.release c)) :=
        CanvasProvider.returnCanvas_wf c st hwf hcmem
      have hrest := ih _ hwf' hv2.2
      refine ⟨hrest.1, ?_⟩
      show (decide (st.live.map Canvas.id).Nodup &&
        CanvasProvider.liveAlwaysNodup
          (CanvasProvider.stepPool st (.release c)) rest) = true
      rw [Bool.and_eq_true]
      exact ⟨decide_eq_true hwf.1, hrest.2⟩

/-- Witness for claim C1, at the concrete nested traversal. -/
theorem pool_checkouts_fresh_and_live_distinct_witness :
    CanvasProvider.checkoutsFresh (CanvasProvider.initPool (ℤ × ℤ)) nestedTraversal = true ∧
      CanvasProvider.liveAlwaysNodup (CanvasProvider.initPool (ℤ × ℤ)) nestedTraversal = true :=
  pool_checkouts_fresh_and_live_distinct (ℤ × ℤ) nestedTraversal
    (CanvasProvider.initPool (ℤ × ℤ))
    (by refine ⟨?_, ?_, ?_, ?_, ?_⟩ <;> simp [CanvasProvider.initPool])
    (by decide)

theorem filter_drawClipLoop_eq_nil (p : DrawEffect → Bool)
    (hp : ∀ i c o, p (DrawEffect.drawItem i c o) = false)
    (items : List SceneItem) (ctx : Nat) (pm : DrawParam) :
    (GroupNode.drawClipLoop items ctx pm).filter p = [] := by
  induction items with
  | nil => rfl
  | cons it rest ih =>
    simp only [GroupNode.drawClipLoop, List.map_cons, List.filter_cons,
      hp it.ident ctx pm.offset] at ih ⊢
    exact ih

theorem filter_drawRegular_eq_nil (p : DrawEffect → Bool)
    (hp : ∀ i c o, p (DrawEffect.drawItem i c o) = false)
    (items : List SceneItem) (ctx : Nat) (pm : DrawParam) :
    (GroupNode.drawRegular items ctx pm).filter p = [] := by
  induction items with
  | nil => rfl
  | cons it rest ih =>
    by_cases hb : it.clipMask
    · simpa [GroupNode.drawRegular, hb] using ih
    · simpa [GroupNode.drawRegular, hb, List.filter_cons,
        hp it.ident ctx pm.offset] using ih

theorem mem_drawClipLoop {e : DrawEffect} {items : List SceneItem} {ctx : Nat}
    {pm : DrawParam} (he : e ∈ GroupNode.drawClipLoop items ctx pm) :
    ∃ i, e = DrawEffect.drawItem i ctx pm.offset := by
  simp only [GroupNode.drawClipLoop, List.mem_map] at he
  obtain ⟨a, -, heq⟩ := he
  exact ⟨a.ident, heq.symm⟩

theorem mem_drawRegular {e : DrawEffect} {items : List SceneItem} {ctx : Nat}
    {pm : DrawParam} (he : e ∈ GroupNode.drawRegular items ctx pm) :
    ∃ i, e = DrawEffect.drawItem i ctx pm.offset := by
  induction items with
  | nil => simp [GroupNode.drawRegular] at he
  | cons it rest ih =>
    simp only [GroupNode.drawRegular, List.mem_append] at he
    rcases he with h1 | h2
    · by_cases hb : it.clipMask
      · simp [hb] at h1
      · simp only [hb, Bool.not_false, if_pos] at h1
        simp only [List.mem_singleton] at h1
        exact ⟨it.ident, h1⟩
    · exact ih h2

/-- Claim C6: drawing a clipped CompositeNode whose stroke-inclusive bounds
have zero width or zero height writes nothing to any surface, performs no
intermediate-surface checkout (the pool is untouched), and returns
normally — the draw function is total, so the early return is a plain
return, not an error. -/
theorem drawPooled_degenerate_noop (g : GroupNode) (ctx : Nat) (param : DrawParam)
    (pool : PoolState (ℚ × ℚ))
    (hclip : (GroupNode.getClipItems g).1.length ≠ 0)
    (hdeg : g.strokeBounds.w = 0 ∨ g.strokeBounds.h = 0) :
    (GroupNode.drawPooled g ctx param pool).1 = [] ∧
      (GroupNode.drawPooled g ctx param pool).2.1 = pool := by
  constructor <;>
    · simp only [GroupNode.drawPooled]
      rw [if_pos hclip, if_pos hdeg]

/-- Witness for claim C6 at a concrete clipped group with zero-width
stroke bounds. -/
theorem drawPooled_degenerate_noop_witness :
    ((GroupNode.getClipItems gC6).1.length ≠ 0 ∧
      (gC6.strokeBounds.w = 0 ∨ gC6.strokeBounds.h = 0)) ∧
      ((GroupNode.drawPooled gC6 3 ⟨(0, 0)⟩ (CanvasProvider.initPool (ℚ × ℚ))).1 = [] ∧
        (GroupNode.drawPooled gC6 3 ⟨(0, 0)⟩ (CanvasProvider.initPool (ℚ × ℚ))).2.1 =
          CanvasProvider.initPool (ℚ × ℚ)) :=
  ⟨⟨by decide, Or.inl rfl⟩,
   drawPooled_degenerate_noop gC6 3 ⟨(0, 0)⟩ (CanvasProvider.initPool (ℚ × ℚ))
     (by decide) (Or.inl rfl)⟩

/-- Claim C4: when a clipped CompositeNode with nondegenerate
stroke-inclusive bounds draws, the drawing offset (the `param.offset`
handed to every child delegation, and the position at which the
intermediate canvas is composited back) is the floor of the bounds'
top-left corner, and the single buffer requested from the pool has size
the ceiling of the bounds' size plus one unit in each dimension. -/
theorem drawPooled_floors_offset_and_pads_size (g : GroupNode) (ctx : Nat)
    (param : DrawParam) (pool : PoolState (ℚ × ℚ))
    (hclip : (GroupNode.getClipItems g).1.length ≠ 0)
    (hw : g.strokeBounds.w ≠ 0) (hh : g.strokeBounds.h ≠ 0) :
    ∃ t,
      (GroupNode.drawPooled g ctx param pool).1.filter DrawEffect.isCheckout =
        [DrawEffect.checkout
          ((((⌈g.strokeBounds.w⌉ : ℤ) + 1 : ℤ) : ℚ),
           (((⌈g.strokeBounds.h⌉ : ℤ) + 1 : ℤ) : ℚ)) t] ∧
      (GroupNode.drawPooled g ctx param pool).1.filter DrawEffect.isDrawImage =
        [DrawEffect.drawImage t ctx
          ((⌊g.strokeBounds.x⌋ : ℤ) : ℚ) ((⌊g.strokeBounds.y⌋ : ℤ) : ℚ)] ∧
      ∀ i tc off,
        DrawEffect.drawItem i tc off ∈ (GroupNode.drawPooled g ctx param pool).1 →
          off = (((⌊g.strokeBounds.x⌋ : ℤ) : ℚ), ((⌊g.strokeBounds.y⌋ : ℤ) : ℚ)) := by
  have hdeg : ¬(g.strokeBounds.w = 0 ∨ g.strokeBounds.h = 0) := by
    rintro (h | h)
    · exact hw h
    · exact hh h
  have hclipC := filter_drawClipLoop_eq_nil DrawEffect.isCheckout (fun _ _ _ => rfl)
  have hregC := filter_drawRegular_eq_nil DrawEffect.isCheckout (fun _ _ _ => rfl)
  have hclipD := filter_drawClipLoop_eq_nil DrawEffect.isDrawImage (fun _ _ _ => rfl)
  have hregD := filter_drawRegular_eq_nil DrawEffect.isDrawImage (fun _ _ _ => rfl)
  refine ⟨(CanvasProvider.getCanvas
      ((((⌈g.strokeBounds.w⌉ : ℤ) + 1 : ℤ) : ℚ),
       (((⌈g.strokeBounds.h⌉ : ℤ) + 1 : ℤ) : ℚ)) pool).1.id, ?_, ?_, ?_⟩
  · simp only [GroupNode.drawPooled]
    rw [if_pos hclip, if_neg hdeg]
    simp [List.filter_cons, List.filter_append, DrawEffect.isCheckout,
      DrawEffect.isDrawImage, hclipC, hregC, hclipD, hregD]
  · simp only [GroupNode.drawPooled]
    rw [if_pos hclip, if_neg hdeg]
    simp [List.filter_cons, List.filter_append, DrawEffect.isCheckout,
      DrawEffect.isDrawImage, hclipC, hregC, hclipD, hregD]
  · intro i tc off hmem
    simp only [GroupNode.drawPooled] at hmem
    rw [if_pos hclip, if_neg hdeg] at hmem
    simp at hmem
    rcases hmem with h | h
    · obtain ⟨i', he⟩ := mem_drawClipLoop h
      injection he
    · obtain ⟨i', he⟩ := mem_drawRegular h
      injection he

/-- Witness for claim C4 at a concrete clipped group with fractional
stroke bounds (the spec's example: x = 10.4, width = 20.3). -/
theorem drawPooled_floors_offset_and_pads_size_witness :
    ((GroupNode.getClipItems gC4).1.length ≠ 0 ∧
      gC4.strokeBounds.w ≠ 0 ∧ gC4.strokeBounds.h ≠ 0) ∧
      (∃ t,
        (GroupNode.drawPooled gC4 7 ⟨(0, 0)⟩ (CanvasProvider.initPool (ℚ × ℚ))).1.filter
            DrawEffect.isCheckout =
          [DrawEffect.checkout
            ((((⌈gC4.strokeBounds.w⌉ : ℤ) + 1 : ℤ) : ℚ),
             (((⌈gC4.strokeBounds.h⌉ : ℤ) + 1 : ℤ) : ℚ)) t] ∧
        (GroupNode.drawPooled gC4 7 ⟨(0, 0)⟩ (CanvasProvider.initPool (ℚ × ℚ))).1.filter
            DrawEffect.isDrawImage =
          [DrawEffect.drawImage t 7
            ((⌊gC4.strokeBounds.x⌋ : ℤ) : ℚ) ((⌊gC4.strokeBounds.y⌋ : ℤ) : ℚ)] ∧
        ∀ i tc off,
          DrawEffect.drawItem i tc off ∈
              (GroupNode.drawPooled gC4 7 ⟨(0, 0)⟩ (CanvasProvider.initPool (ℚ × ℚ))).1 →
            off = (((⌊gC4.strokeBounds.x⌋ : ℤ) : ℚ), ((⌊gC4.strokeBounds.y⌋ : ℤ) : ℚ))) :=
  ⟨⟨by decide, by norm_num [gC4], by norm_num [gC4]⟩,
   drawPooled_floors_offset_and_pads_size gC4 7 ⟨(0, 0)⟩
     (CanvasProvider.initPool (ℚ × ℚ)) (by decide)
     (by norm_num [gC4]) (by norm_num [gC4])⟩

/-- Claim C2 (the code contradicts it): in the shared single-buffer draw
variant, the regular-item loop's guard tests the nonexistent property
`_clipMark` (a slip for `_clipMask`; the comment above the loop reads
"Draw the regular items" and the pooled sibling excludes clip items), so a
clip-mask child is drawn again in the regular pass: over the whole draw
call it is delegated to twice, where the claim (and the pooled variant)
say exactly once, in the stencil pass only. -/
theorem drawShared_draws_clip_child_twice :
    countItemDraws 0
      ((GroupNode.drawShared gC2 9 ⟨(0, 0)⟩ none
        (CanvasProvider.initPool (ℚ × ℚ))).1) = 2 := by
  rfl

theorem getClipItems_children (g : GroupNode) :
    (GroupNode.getClipItems g).2.children = g.children := by
  cases h : g.clipItems <;> simp [GroupNode.getClipItems, h]

theorem clipMask_withClipMask (c : SceneItem) (m : Bool) :
    (SceneItem.withClipMask c m).clipMask = m := by
  cases c
  rfl

/-- Claim C3: a change notification carrying HIERARCHY or CLIPPING bits
clears the clip-item cache, and the next `getClipItems()` read returns
exactly the direct children whose `clipMask` is set, in children-list
order, each of them a direct child (never a grandchild); in particular,
after attaching a clip-mask child to a previously unclipped group,
`isClipped()` reads true.  (`Item#addChildren` and the ChangeFlag bit
constants are modelled from the spec; the cache handling is the sampled
`Group._changed`/`Group._getClipItems`.) -/
theorem changed_clears_cache_next_read_direct (g : GroupNode) (flags : Nat)
    (c : SceneItem)
    (hf : flags &&& (ChangeFlag.HIERARCHY ||| ChangeFlag.CLIPPING) ≠ 0)
    (hmask : c.clipMask = true)
    (hunclipped : (GroupNode.isClipped g).1 = false) :
    (GroupNode.changed g flags).clipItems = none ∧
      (GroupNode.getClipItems (GroupNode.changed g flags)).1 =
        g.children.filter SceneItem.clipMask ∧
      (∀ x ∈ (GroupNode.getClipItems (GroupNode.changed g flags)).1,
        x ∈ g.children) ∧
      (GroupNode.isClipped (GroupNode.addChild (GroupNode.isClipped g).2 c)).1 =
        true := by
  have h1 : (GroupNode.changed g flags).clipItems = none := by
    simp only [GroupNode.changed]
    rw [if_pos hf]
  have h2 : (GroupNode.getClipItems (GroupNode.changed g flags)).1 =
      g.children.filter SceneItem.clipMask := by
    have hch : (GroupNode.changed g flags).children = g.children := by
      simp only [GroupNode.changed]
      rw [if_pos hf]
    simp [GroupNode.getClipItems, h1, hch]
  refine ⟨h1, h2, ?_, ?_⟩
  · intro x hx
    rw [h2] at hx
    exact (List.mem_filter.mp hx).1
  · have hstep : GroupNode.addChild (GroupNode.isClipped g).2 c =
        { (GroupNode.isClipped g).2 with
          children := (GroupNode.isClipped g).2.children ++ [c],
          clipItems := none } := by
      simp only [GroupNode.addChild, GroupNode.changed]
      rw [if_pos (by decide :
        ChangeFlag.HIERARCHY &&& (ChangeFlag.HIERARCHY ||| ChangeFlag.CLIPPING) ≠ 0)]
    rw [hstep]
    simp [GroupNode.isClipped, GroupNode.getClipItems, List.filter_append,
      List.filter_cons, hmask]

/-- Witness for claim C3: a HIERARCHY notification on the concrete group
whose only clip-mask node is a grandchild, then attaching a clip-mask
child. -/
theorem changed_clears_cache_next_read_direct_witness :
    (ChangeFlag.HIERARCHY &&& (ChangeFlag.HIERARCHY ||| ChangeFlag.CLIPPING) ≠ 0 ∧
      (SceneItem.node 1 true []).clipMask = true ∧
      (GroupNode.isClipped gC3).1 = false) ∧
      ((GroupNode.changed gC3 ChangeFlag.HIERARCHY).clipItems = none ∧
        (GroupNode.getClipItems (GroupNode.changed gC3 ChangeFlag.HIERARCHY)).1 =
          gC3.children.filter SceneItem.clipMask ∧
        (∀ x ∈ (GroupNode.getClipItems (GroupNode.changed gC3 ChangeFlag.HIERARCHY)).1,
          x ∈ gC3.children) ∧
        (GroupNode.isClipped
          (GroupNode.addChild (GroupNode.isClipped gC3).2 (SceneItem.node 1 true []))).1 =
          true) :=
  ⟨⟨by decide, rfl, by decide⟩,
   changed_clears_cache_next_read_direct gC3 ChangeFlag.HIERARCHY
     (SceneItem.node 1 true []) (by decide) rfl (by decide)⟩

/-- Claim C8: `setClipped(flag)` writes `clipMask` only on the first child
(the tail of the children list is untouched); consequently `setClipped
false` on a group whose only clip-mask child is not the first child leaves
`isClipped()` reading true. -/
theorem setClipped_misses_nonfirst_mask (g : GroupNode) (flag : Bool)
    (c0 : SceneItem) (rest : List SceneItem)
    (hch : g.children = c0 :: rest)
    (h0 : c0.clipMask = false)
    (hmask : ∃ c ∈ rest, c.clipMask = true) :
    (GroupNode.setClipped g flag).children.drop 1 = g.children.drop 1 ∧
      (GroupNode.isClipped (GroupNode.setClipped g false)).1 = true := by
  have hcond : ChangeFlag.CLIPPING &&& (ChangeFlag.HIERARCHY ||| ChangeFlag.CLIPPING) ≠ 0 :=
    by decide
  constructor
  · simp [GroupNode.setClipped, hch, GroupNode.changed, hcond]
  · obtain ⟨c, hcmem, hcm⟩ := hmask
    have hset : GroupNode.setClipped g false =
        { g with children := SceneItem.withClipMask c0 false :: rest,
                 clipItems := none } := by
      simp only [GroupNode.setClipped, hch, GroupNode.changed]
      rw [if_pos hcond]
    rw [hset]
    have hcf : c ∈ rest.filter SceneItem.clipMask :=
      List.mem_filter.mpr ⟨hcmem, by simp [hcm]⟩
    simp [GroupNode.isClipped, GroupNode.getClipItems, List.filter_cons,
      clipMask_withClipMask]
    exact ⟨c, hcmem, hcm⟩

/-- Witness for claim C8: `setClipped false` on the concrete group whose
clip-mask child is the second child. -/
theorem setClipped_misses_nonfirst_mask_witness :
    (gC8.children = SceneItem.node 0 false [] :: [SceneItem.node 1 true []] ∧
      (SceneItem.node 0 false []).clipMask = false ∧
      (∃ c ∈ [SceneItem.node 1 true []], c.clipMask = true)) ∧
      ((GroupNode.setClipped gC8 true).children.drop 1 = gC8.children.drop 1 ∧
        (GroupNode.isClipped (GroupNode.setClipped gC8 false)).1 = true) :=
  ⟨⟨rfl, rfl, ⟨SceneItem.node 1 true [], List.mem_singleton.mpr rfl, rfl⟩⟩,
   setClipped_misses_nonfirst_mask gC8 true (SceneItem.node 0 false [])
     [SceneItem.node 1 true []] rfl rfl
     ⟨SceneItem.node 1 true [], List.mem_singleton.mpr rfl, rfl⟩⟩

/-- Claim C9 (the code contradicts it): on the distinct equal-length
arrays `[1]` and `[2]` the comparison never terminates at any recursion
depth — the element loop at line 73 recurses on `Base.equals(obj1, obj2)`,
the same whole arrays, instead of `obj1[i], obj2[i]` (the doc comment
says elements of arrays are compared), so the JS call overflows the stack
instead of returning a boolean. -/
theorem equals_diverges_on_distinct_arrays (fuel : Nat) :
    equalsFuel fuel (.arr [.num 1]) (.arr [.num 2]) = none := by
  induction fuel with
  | zero => rfl
  | succ n ih =>
    show arrLoopF (equalsFuel n) (.arr [.num 1]) (.arr [.num 2]) 1 = none
    show (match equalsFuel n (.arr [.num 1]) (.arr [.num 2]) with
      | none => none
      | some false => some false
      | some true => arrLoopF (equalsFuel n) (.arr [.num 1]) (.arr [.num 2]) 0) = none
    rw [ih]

theorem withIndices_length (start : Nat) (l : List ChildElem) :
    (withIndices start l).length = l.length := by
  induction l generalizing start with
  | nil => rfl
  | cons it rest ih => simp [withIndices, ih]

theorem indexInvariantFrom_append (pos : Nat) (l1 l2 : List ChildElem) :
    indexInvariantFrom pos (l1 ++ l2) =
      (indexInvariantFrom pos l1 && indexInvariantFrom (pos + l1.length) l2) := by
  induction l1 generalizing pos with
  | nil => simp [indexInvariantFrom]
  | cons it rest ih =>
    simp [indexInvariantFrom, ih, Bool.and_assoc, Nat.add_assoc, Nat.add_comm 1]

theorem indexInvariantFrom_withIndices (start : Nat) (l : List ChildElem) :
    indexInvariantFrom start (withIndices start l) = true := by
  induction l generalizing start with
  | nil => rfl
  | cons it rest ih => simp [withIndices, indexInvariantFrom, ih]

theorem adjustFrom_append (threshold pos : Nat) (l1 l2 : List ChildElem) :
    adjustFrom threshold pos (l1 ++ l2) =
      adjustFrom threshold pos l1 ++ adjustFrom threshold (pos + l1.length) l2 := by
  induction l1 generalizing pos with
  | nil => simp [adjustFrom]
  | cons it rest ih =>
    simp [adjustFrom, ih, Nat.add_assoc, Nat.add_comm 1]

theorem adjustFrom_below {threshold pos : Nat} {l : List ChildElem}
    (h : pos + l.length ≤ threshold) : adjustFrom threshold pos l = l := by
  induction l generalizing pos with
  | nil => rfl
  | cons it rest ih =>
    have h0 : ¬ threshold ≤ pos := by
      simp only [List.length_cons] at h
      omega
    have h1 : pos + 1 + rest.length ≤ threshold := by
      simp only [List.length_cons] at h
      omega
    simp [adjustFrom, h0, ih h1]

theorem indexInvariantFrom_adjustFrom_ge {threshold pos : Nat} (l : List ChildElem)
    (h : threshold ≤ pos) :
    indexInvariantFrom pos (adjustFrom threshold pos l) = true := by
  induction l generalizing pos with
  | nil => rfl
  | cons it rest ih =>
    simp [adjustFrom, if_pos h, indexInvariantFrom,
      ih (Nat.le_succ_of_le h)]

/-- Claim C10, amended: provided the insertion index is the JS `undefined`
(append) or at most the list length, `Base.splice` preserves the index
invariant — starting from a list where each element's `_index` equals its
position, after the call each element of the resulting list has `_index`
equal to its new position, and every removed element has its `_index`
property deleted.  (With an index beyond the list length the invariant
breaks; see the counterexample.) -/
theorem splice_preserves_index_invariant (list items : List ChildElem)
    (index : Option Nat) (remove : Nat)
    (hinv : indexInvariant list = true)
    (hin : ∀ k, index = some k → k ≤ list.length) :
    indexInvariant (spliceJS list items index remove).1 = true ∧
      ∀ r ∈ (spliceJS list items index remove).2, r.idx = none := by
  cases index with
  | none =>
    refine ⟨?_, by simp [spliceJS]⟩
    show indexInvariantFrom 0 (list ++ withIndices (list.length) items) = true
    rw [indexInvariantFrom_append]
    rw [indexInvariant] at hinv
    simp [hinv, indexInvariantFrom_withIndices]
  | some ix =>
    have hix : ix ≤ list.length := hin ix rfl
    have hmin : min ix list.length = ix := Nat.min_eq_left hix
    constructor
    · show indexInvariantFrom 0
        (adjustFrom (ix + items.length) 0
          (list.take (min ix list.length) ++
            (withIndices ix items ++
              (list.drop (min ix list.length)).drop remove))) = true
      rw [hmin]
      rw [← List.append_assoc]
      have hlen : (list.take ix ++ withIndices ix items).length =
          ix + items.length := by
        simp [withIndices_length, List.length_take, hmin]
      rw [adjustFrom_append, hlen]
      rw [adjustFrom_below (by simp [hlen])]
      rw [indexInvariantFrom_append, hlen]
      have hsplit := hinv
      rw [indexInvariant, ← List.take_append_drop ix list,
        indexInvariantFrom_append, Bool.and_eq_true] at hsplit
      rw [indexInvariantFrom_append]
      simp only [Nat.zero_add, List.length_take, hmin]
      rw [hsplit.1]
      have : (list.take ix).length = ix := by
        simp [List.length_take, hmin]
      simp [this, indexInvariantFrom_withIndices,
        indexInvariantFrom_adjustFrom_ge _ (Nat.le_refl _)]
    · intro r hr
      simp only [spliceJS, List.mem_map] at hr
      obtain ⟨x, -, hx⟩ := hr
      rw [← hx]

/-- Counterexample to claim C10 as stated: splicing with index 5 into the
singleton list `[e0]` (whose invariant holds) yields `[e0, e1]` where the
inserted element sits at position 1 but carries `_index = 5` — JS
`Array.prototype.splice` clamps the insertion position to the list length,
while the `_index` stamps and the adjustment loop use the raw index, so
the invariant breaks. -/
theorem splice_out_of_range_breaks_invariant :
    indexInvariant [⟨0, some 0⟩] = true ∧
      indexInvariant (spliceJS [⟨0, some 0⟩] [⟨1, none⟩] (some 5) 0).1 = false ∧
      (spliceJS [⟨0, some 0⟩] [⟨1, none⟩] (some 5) 0).1 =
        [⟨0, some 0⟩, ⟨1, some 5⟩] := by
  refine ⟨rfl, rfl, rfl⟩

/-- Witness for the amended claim C10: an in-range splice replacing the
second element of a two-element list. -/
theorem splice_preserves_index_invariant_witness :
    (indexInvariant [⟨0, some 0⟩, ⟨1, some 1⟩] = true ∧
      (∀ k, (some 1 : Option Nat) = some k → k ≤ ([⟨0, some 0⟩, ⟨1, some 1⟩] : List ChildElem).length)) ∧
      (indexInvariant (spliceJS [⟨0, some 0⟩, ⟨1, some 1⟩] [⟨5, none⟩] (some 1) 1).1 = true ∧
        ∀ r ∈ (spliceJS [⟨0, some 0⟩, ⟨1, some 1⟩] [⟨5, none⟩] (some 1) 1).2, r.idx = none) :=
  ⟨⟨rfl, fun k hk => (Option.some.inj hk) ▸ (by decide : (1 : Nat) ≤ 2)⟩,
   splice_preserves_index_invariant [⟨0, some 0⟩, ⟨1, some 1⟩] [⟨5, none⟩]
     (some 1) 1 rfl (fun k hk => (Option.some.inj hk) ▸ (by decide : (1 : Nat) ≤ 2))⟩
